import Mathlib

/-!
Verification of the jobscraper extraction and matching engine.

Python strings are embedded as `List Char` (`Str`); pure functions from
`src/scraper/url_utils.py`, `src/scraper/core.py`, `src/scraper/extractors/base.py`
and `src/scraper/extractors/custom.py` are translated as executable Lean
definitions.  Browser-dependent operations (locators, navigation, extraction)
are modelled by explicit environments describing what the browser returns.
All Python string operations are modelled for their ASCII behaviour, which is
the behaviour exercised by the scraper (keywords, URLs and CSS selectors are
ASCII).
-/

/-- Embedded Python string. -/
abbrev Str := List Char

/-- Python str.lower, ASCII fragment (Char.toLower shifts only A-Z). -/
def lowerStr (s : Str) : Str := s.map Char.toLower

/-- Python `needle in haystack` for strings: contiguous-substring containment. -/
def pyIn (needle hay : Str) : Bool := decide (needle <:+: hay)

/-- Python str.startswith. -/
def pyStartsWith (pre s : Str) : Bool := decide (pre <+: s)

/-! ## URL utilities (src/scraper/url_utils.py) -/

/-- Python `url.split('?')[0]`: the part before the first question mark. -/
def beforeQuery (u : Str) : Str := u.takeWhile (fun c => c != '?')

/-- Python `s.rstrip('/')`: drop every trailing slash. -/
def rstripSlash (u : Str) : Str := (u.reverse.dropWhile (fun c => c == '/')).reverse

/-- normalize_url (url_utils.py lines 42-55): `url.split('?')[0].rstrip('/')`. -/
def normalize_url (u : Str) : Str := rstripSlash (beforeQuery u)

/-- is_same_url (url_utils.py lines 58-68): equality after normalization. -/
def is_same_url (u v : Str) : Bool := normalize_url u == normalize_url v

/-- Characters CPython urllib.parse allows in a URL scheme after the first. -/
def isSchemeChar (c : Char) : Bool := c.isAlpha || c.isDigit || c == '+' || c == '-' || c == '.'

/-- Model of the scheme-stripping step of CPython urlparse: when the string has
a colon preceded by a nonempty run of scheme characters whose first character
is a letter, the scheme and the colon are removed. -/
def dropScheme (u : Str) : Str :=
  let i := u.findIdx (fun c => c == ':')
  if 0 < i ∧ i < u.length then
    let pre := u.take i
    match pre with
    | [] => u
    | c :: _ => if c.isAlpha && pre.all isSchemeChar then u.drop (i + 1) else u
  else u

/-- Model of `urlparse(url).netloc`: after removing the scheme, when the rest
begins with two slashes the netloc runs until the next slash, question mark or
hash; otherwise the netloc is empty. -/
def netlocOf (u : Str) : Str :=
  match dropScheme u with
  | '/' :: '/' :: r => r.takeWhile (fun c => c != '/' && c != '?' && c != '#')
  | _ => []

/-- is_job_url (url_utils.py lines 71-94): reject non-http URLs, trust any
cross-domain URL, and for same-domain URLs require a job pattern substring of
the lowercased URL. -/
def is_job_url (url page_domain : Str) (patterns : List Str) : Bool :=
  if url.isEmpty || !(pyStartsWith "http".toList url) then false
  else if netlocOf url != page_domain then true
  else patterns.any (fun p => pyIn p (lowerStr url))

/-! ## Keyword matcher (src/scraper/core.py lines 89-111)

The Python code searches for the regex-escaped, lowercased keyword wrapped in
word-boundary anchors inside the lowercased text.  Because the keyword is
regex-escaped, the pattern matches exactly the literal keyword, with a word
boundary required on each side.  A word boundary sits between positions whose
word-character status differs (positions outside the string count as
non-word). -/

/-- Python regex word character, ASCII fragment: letters, digits, underscore. -/
def isWordChar (c : Char) : Bool := c.isAlphanum || c == '_'

/-- Whether position i of the text holds a word character (false past the end). -/
def wordAt (t : Str) (i : Nat) : Bool :=
  match t[i]? with
  | some c => isWordChar c
  | none => false

/-- Regex word boundary at position i (0 ≤ i ≤ length). -/
def boundaryAt (t : Str) (i : Nat) : Bool :=
  (if i = 0 then false else wordAt t (i - 1)) != wordAt t i

/-- The literal keyword occurs at position i with word boundaries on both sides. -/
def matchesAt (t kw : Str) (i : Nat) : Bool :=
  ((t.drop i).take kw.length == kw) && boundaryAt t i && boundaryAt t (i + kw.length)

/-- Python re.search of the boundary-wrapped escaped keyword. -/
def hasWordMatch (t kw : Str) : Bool :=
  (List.range (t.length + 1)).any (fun i => matchesAt t kw i)

/-- match_keywords (core.py lines 89-111): empty text or keyword list yields
the empty list, otherwise the keywords whose lowercased form occurs with word
boundaries in the lowercased text, kept in input order and original casing. -/
def match_keywords (text : Str) (keywords : List Str) : List Str :=
  if text.isEmpty || keywords.isEmpty then []
  else
    let text_lower := lowerStr text
    keywords.filter (fun kw => hasWordMatch text_lower (lowerStr kw))

/-! ## Location filter (src/scraper/core.py lines 113-165) -/

/-- The optional include and exclude pattern lists of a location_filters
configuration entry (the dict keys include and exclude). -/
structure LocationFilters where
  includePats : List Str
  excludePats : List Str
deriving DecidableEq

/-- matches_location_pattern (core.py lines 113-129): false on empty text or
empty pattern, otherwise case-insensitive substring containment. -/
def matches_location_pattern (text pat : Str) : Bool :=
  if text.isEmpty || pat.isEmpty then false
  else pyIn (lowerStr pat) (lowerStr text)

/-- should_filter_by_location (core.py lines 131-165): with no filters keep
the job; with a non-empty include list filter the job out unless some include
pattern matches; then filter the job out when some exclude pattern matches
(the Python code guards the exclude check behind a non-emptiness test, which
is redundant because any over an empty list is already false). -/
def should_filter_by_location (text : Str) (lf : Option LocationFilters) : Bool :=
  match lf with
  | none => false
  | some f =>
    if !f.includePats.isEmpty && !f.includePats.any (fun p => matches_location_pattern text p)
    then true
    else if f.excludePats.any (fun p => matches_location_pattern text p) then true
    else false

/-! ## Raw jobs and URL deduplication (src/scraper/core.py lines 403-407)

The orchestrator deduplicates by inserting each job into a Python dict keyed
by URL and taking the values.  A CPython dict preserves first-insertion order
of keys and re-assignment replaces the stored value in place, which the
association-list upsert below models exactly. -/

/-- One extracted job record (dict with keys title, url, description). -/
structure RawJob where
  title : Str
  url : Str
  description : Str
deriving DecidableEq

instance : Inhabited RawJob := ⟨⟨[], [], []⟩⟩

/-- Dict assignment `m[k] = v`: replace the value at an existing key in
place, otherwise append the binding at the end. -/
def upsert (m : List (Str × RawJob)) (k : Str) (v : RawJob) : List (Str × RawJob) :=
  match m with
  | [] => [(k, v)]
  | (k', v') :: rest => if k' = k then (k', v) :: rest else (k', v') :: upsert rest k v

/-- The dict built by `for job in all_jobs: unique_jobs[job.url] = job`. -/
def jobsDict (jobs : List RawJob) : List (Str × RawJob) :=
  jobs.foldl (fun m j => upsert m j.url j) []

/-- Deduplication step of scrape_company (core.py lines 403-407):
`list(unique_jobs.values())`. -/
def dedupe_jobs (jobs : List RawJob) : List RawJob :=
  (jobsDict jobs).map Prod.snd

/-- Lookup in the association-list model of the dict. -/
def assocFind (m : List (Str × RawJob)) (k : Str) : Option RawJob :=
  (m.find? (fun p => p.1 == k)).map Prod.snd

/-- The last job of the list carrying the given URL. -/
def lastWithUrl (l : List RawJob) (k : Str) : Option RawJob :=
  l.reverse.find? (fun j => j.url == k)

/-! ## Pagination controller (src/scraper/core.py lines 208-249)

The browser is abstracted as a map from a selector to what
`page.locator(selector).first` yields: an exception during location or the
visibility check, a non-visible element, or a visible element together with
its optional text content.  Clicking and the post-click network-idle wait
are modelled as succeeding; their runtime failures are exception paths
outside the decision logic under test. -/

/-- Result of locating a selector and checking visibility. -/
inductive LocatorView where
  | err : LocatorView
  | hidden : LocatorView
  | vis : Option Str → LocatorView

/-- PAGINATION_KEYWORDS (src/scraper/constants.py lines 146-154). -/
def PAGINATION_KEYWORDS : List Str :=
  ["next".toList, "more".toList, ">".toList, "→".toList, "»".toList,
   "load more".toList, "show more".toList]

/-- DEFAULT_PAGINATION_SELECTORS (src/scraper/constants.py lines 110-143). -/
def DEFAULT_PAGINATION_SELECTORS : List Str :=
  ["a[aria-label=\"Next\"]".toList,
   "a[aria-label=\"Next page\"]".toList,
   "button[aria-label=\"Next\"]".toList,
   "button[aria-label=\"Next page\"]".toList,
   "a[rel=\"next\"]".toList,
   "a.next-page".toList,
   "a.pagination-next".toList,
   "button.next-page".toList,
   "button.pagination-next".toList,
   "nav a:has-text(\"Next\")".toList,
   "nav button:has-text(\"Next\")".toList,
   "div[role=\"navigation\"] a:has-text(\"Next\")".toList,
   "div[role=\"navigation\"] button:has-text(\"Next\")".toList,
   "button:has-text(\"Show More\")".toList,
   "button:has-text(\"Load More\")".toList,
   "a:has-text(\"Show More\")".toList,
   "a:has-text(\"Load More\")".toList,
   "nav.pagination a.next".toList,
   "ul.pagination a.next".toList,
   "div.pagination a.next".toList,
   "nav[aria-label*=\"pagination\" i] a:last-child".toList]

/-- Python str.strip(), ASCII whitespace fragment. -/
def stripStr (s : Str) : Str :=
  ((s.dropWhile Char.isWhitespace).reverse.dropWhile Char.isWhitespace).reverse

/-- The text test of check_for_next_page: the lowercased, stripped text must
contain a pagination keyword, or the raw text must contain a directional
symbol. -/
def paginationTextQualifies (t : Str) : Bool :=
  let tl := stripStr (lowerStr t)
  PAGINATION_KEYWORDS.any (fun k => pyIn k tl) || [('>' : Char), '→', '»'].any (fun c => t.contains c)

/-- One iteration of the selector loop: the element must be visible, its text
content truthy (present and non-empty), and the text must qualify. -/
def selectorQualifies (view : Str → LocatorView) (s : Str) : Bool :=
  match view s with
  | LocatorView.vis (some t) => !t.isEmpty && paginationTextQualifies t
  | _ => false

/-- check_for_next_page (core.py lines 208-249): an explicitly empty custom
selector list disables pagination; a provided non-empty list replaces the
default list; the loop clicks (and reports true) at the first visible
selector whose text qualifies, and reports false when every selector is
exhausted. -/
def check_for_next_page (view : Str → LocatorView) (custom : Option (List Str)) : Bool :=
  match custom with
  | some [] => false
  | some sels => sels.any (selectorQualifies view)
  | none => DEFAULT_PAGINATION_SELECTORS.any (selectorQualifies view)

/-! ## Custom extractor (src/scraper/extractors/custom.py lines 75-139 and
extractors/base.py lines 61-173)

A container element is abstracted by the results of the markup queries the
extractor performs on it: whether it sits inside nav/header/footer, the href
of the selected link (none when no link is found), the text of that link, the
text of the title-selector element (none when the selector is absent or
matches nothing), the text of the first heading, the full container text, and
the text of the description-selector element.  URL resolution
(make_absolute_url, a thin wrapper over urljoin) is passed in as a function
parameter. -/

/-- Markup-query view of one candidate container. -/
structure CContainer where
  parentNav : Bool
  linkHref : Option Str
  linkText : Str
  titleSelText : Option Str
  headingText : Option Str
  containerText : Str
  descSelText : Option Str
deriving DecidableEq

/-- _extract_title_from_container (base.py lines 61-95): title-selector text,
else link text, else first heading text (each fallback taken when the
previous candidate is empty). -/
def extractTitleFromContainer (c : CContainer) : Str :=
  let t1 := match c.titleSelText with | some s => s | none => []
  let t2 := if t1.isEmpty then c.linkText else t1
  if t2.isEmpty then (match c.headingText with | some s => s | none => []) else t2

/-- _extract_description_from_container (base.py lines 97-117): the
description-selector text, else the full container text. -/
def extractDescriptionFromContainer (c : CContainer) : Str :=
  match c.descSelText with
  | some s => s
  | none => c.containerText

/-- _is_valid_title (base.py lines 119-129): non-empty and at least
min_length characters. -/
def is_valid_title (t : Str) (minLen : Nat) : Bool :=
  !t.isEmpty && minLen ≤ t.length

/-- _should_exclude_by_title (base.py lines 142-157): some exclude keyword is
a substring of the lowercased title; the keyword itself is not lowercased. -/
def should_exclude_by_title (t : Str) (kws : List Str) : Bool :=
  kws.any (fun k => pyIn k (lowerStr t))

/-- _should_exclude_by_url (base.py lines 159-173): some exclude pattern is a
verbatim substring of the URL. -/
def should_exclude_by_url (u : Str) (pats : List Str) : Bool :=
  pats.any (fun p => pyIn p u)

/-- The per-container pipeline of CustomExtractor.extract (custom.py lines
75-136): skip nav/header/footer containers, containers without a link or
href, non-http resolved URLs, excluded URLs, the page URL itself, titles that
are too short, and excluded titles; otherwise produce a RawJob. -/
def processContainer (resolve : Str → Str → Str) (pageUrl : Str)
    (excludeUrls excludeTitles : List Str) (c : CContainer) : Option RawJob :=
  if c.parentNav then none else
  match c.linkHref with
  | none => none
  | some href =>
    if href.isEmpty then none else
    let url := resolve href pageUrl
    if !(pyStartsWith "http".toList url) then none else
    if should_exclude_by_url url excludeUrls then none else
    if is_same_url url pageUrl then none else
    let title := extractTitleFromContainer c
    if !(is_valid_title title 3) then none else
    if should_exclude_by_title title excludeTitles then none else
    some ⟨title, url, extractDescriptionFromContainer c⟩

/-- First-occurrence URL deduplication via the found_jobs set of
CustomExtractor.extract. -/
def dedupeFirstAux : List RawJob → List Str → List RawJob
  | [], _ => []
  | j :: rest, seen =>
    if seen.contains j.url then dedupeFirstAux rest seen
    else j :: dedupeFirstAux rest (j.url :: seen)

/-- CustomExtractor.extract over the selected container list: process each
container and keep the first job per URL. -/
def custom_extract (resolve : Str → Str → Str) (pageUrl : Str)
    (excludeUrls excludeTitles : List Str) (containers : List CContainer) : List RawJob :=
  dedupeFirstAux (containers.filterMap (processContainer resolve pageUrl excludeUrls excludeTitles)) []

/-! ## Extraction dispatch (src/scraper/core.py lines 167-206)

The four extractors read the live page, so their outputs are inputs of the
model; extract_jobs_from_page only chooses between them.  A custom config
that is present but an empty dict is falsy in Python and is modelled as
none. -/

/-- The fields of scraping_config consulted by the orchestrator. -/
structure CustomScrapeConfig where
  use_js_navigation : Bool
  pagination_selectors : Option (List Str)
deriving DecidableEq

/-- extract_jobs_from_page (core.py lines 167-206): clicking when the custom
config requests JS navigation, else custom, else iframe when enabled with a
fallback to default on an empty iframe result, else default. -/
def extract_jobs_from_page (cfg : Option CustomScrapeConfig) (useIframe : Bool)
    (clickingJobs customJobs iframeJobs defaultJobs : List RawJob) : List RawJob :=
  match cfg with
  | some c => if c.use_js_navigation then clickingJobs else customJobs
  | none =>
    if useIframe then (if iframeJobs.isEmpty then defaultJobs else iframeJobs)
    else defaultJobs

/-! ## Company scrape orchestrator (src/scraper/core.py lines 332-469)

One company scrape is modelled against an environment giving, per page
number, the job list the extraction strategy returns and whether the
pagination controller advances, together with the point (if any) at which a
browser operation raises an exception that the company-level handler
catches.  The whole try block of scrape_company runs until the failure
point; the except handlers then return the matches list as accumulated,
which is empty for every failure point before match construction.  Keyword
sets: JobScraper lowercases universal keywords at construction and company
keywords in scrape_company, then deduplicates their union through a Python
set; the set iteration order is unspecified in CPython, and no claim here
depends on the order, so the model deduplicates with List.dedup. -/

/-- A matched job (core.py lines 42-52). -/
structure JobMatch where
  title : Str
  url : Str
  company : Str
  matched_keywords : List Str
deriving DecidableEq

/-- The company configuration fields consulted by the orchestrator model. -/
structure Company where
  name : Str
  job_board_url : Str
  keywords : List Str
  location_filters : Option LocationFilters
  max_pages : Nat
deriving DecidableEq

/-- Where, if anywhere, a browser operation raises during the company try
block. -/
inductive FailPoint where
  | ok
  | nav
  | actions
  | extractPage (n : Nat)
  | paginate (n : Nat)
  | close
deriving DecidableEq

/-- What the browser yields during one company scrape. -/
structure ScrapeEnv where
  pages : Nat → List RawJob
  hasNext : Nat → Bool
  fail : FailPoint

/-- The extraction/pagination while loop (core.py lines 381-401), starting at
page n with the given number of pages still allowed; an error marks an
exception escaping the try block at that page. -/
def loopPages (env : ScrapeEnv) : Nat → Nat → Except Unit (List RawJob)
  | _, 0 => Except.ok []
  | n, fuel + 1 =>
    if env.fail = FailPoint.extractPage n then Except.error () else
    let js := env.pages n
    if env.fail = FailPoint.paginate n then Except.error () else
    if env.hasNext n then
      match loopPages env (n + 1) fuel with
      | Except.error e => Except.error e
      | Except.ok rest => Except.ok (js ++ rest)
    else Except.ok js

/-- The filter-and-match loop of scrape_company (core.py lines 411-429):
combined text is title, a space, then description; location filter first,
then keyword matching; a job with at least one matched keyword becomes a
JobMatch. -/
def buildMatches (companyName : Str) (allKeywords : List Str)
    (lf : Option LocationFilters) (jobs : List RawJob) : List JobMatch :=
  jobs.filterMap (fun j =>
    if should_filter_by_location (j.title ++ ' ' :: j.description) lf then none
    else
      if (match_keywords (j.title ++ ' ' :: j.description) allKeywords).isEmpty then none
      else some ⟨j.title, j.url, companyName,
        match_keywords (j.title ++ ' ' :: j.description) allKeywords⟩)

/-- scrape_company (core.py lines 332-442).  Keywords are lowercased before
the union (universal ones at JobScraper construction, line 65; company ones
at line 344).  A missing job_board_url skips the company.  A failure at
navigation, during the pre-scrape actions or inside the extraction loop is
caught with matches still empty; a failure at the final page.close happens
after the matches list is fully built, so the handler returns it as is. -/
def scrape_company (env : ScrapeEnv) (universalKeywords : List Str) (c : Company) :
    List JobMatch :=
  if c.job_board_url.isEmpty then [] else
  if env.fail = FailPoint.nav then [] else
  if env.fail = FailPoint.actions then [] else
  match loopPages env 1 c.max_pages with
  | Except.error _ => []
  | Except.ok allJobs =>
    buildMatches c.name ((universalKeywords.map lowerStr ++ c.keywords.map lowerStr).dedup)
      c.location_filters (dedupe_jobs allJobs)

/-- scrape_all (core.py lines 444-469): sequential iteration over the
companies, concatenating each company's matches. -/
def scrape_all (universalKeywords : List Str) (companies : List (Company × ScrapeEnv)) :
    List JobMatch :=
  if companies.isEmpty then []
  else (companies.map (fun p => scrape_company p.2 universalKeywords p.1)).flatten

/-! ## Helper lemmas for URL normalization -/

theorem rstripSlash_cons (a : Char) (x : Str) :
    rstripSlash (a :: x) =
      if (rstripSlash x).isEmpty then (if a == '/' then [] else [a])
      else a :: rstripSlash x := by
  unfold rstripSlash
  rw [List.reverse_cons, List.dropWhile_append]
  by_cases h : (List.dropWhile (fun c => c == '/') x.reverse) = []
  · have h1 : (List.dropWhile (fun c => c == '/') x.reverse).isEmpty = true := by
      rw [h]; rfl
    have h2 : (List.dropWhile (fun c => c == '/') x.reverse).reverse.isEmpty = true := by
      rw [h]; rfl
    rw [h1, if_pos rfl, h2, if_pos rfl]
    by_cases ha : (a == '/') = true
    · rw [if_pos ha]
      simp only [List.dropWhile_cons, ha, if_true]
      rfl
    · have ha2 : (a == '/') = false := by simpa using ha
      rw [if_neg (by simp [ha2])]
      simp only [List.dropWhile_cons, ha2]
      rfl
  · have h1 : (List.dropWhile (fun c => c == '/') x.reverse).isEmpty = false := by
      simpa [List.isEmpty_iff] using h
    have h2 : (List.dropWhile (fun c => c == '/') x.reverse).reverse.isEmpty = false := by
      simpa [List.isEmpty_iff, List.reverse_eq_nil_iff] using h
    rw [h1, if_neg (by simp), h2, if_neg (by simp)]
    rw [List.reverse_append]
    rfl

theorem normalize_append_slash (u : Str) :
    normalize_url (u ++ ['/']) = normalize_url u := by
  induction u with
  | nil => rfl
  | cons a t ih =>
    unfold normalize_url beforeQuery at *
    by_cases ha : a = '?'
    · subst ha
      simp [List.takeWhile_cons]
    · have ha2 : (a != '?') = true := by simpa using ha
      rw [List.cons_append, List.takeWhile_cons, ha2, List.takeWhile_cons, ha2]
      simp only [if_true]
      rw [rstripSlash_cons, rstripSlash_cons, ih]

theorem beforeQuery_append_query (u q : Str) :
    beforeQuery (u ++ '?' :: q) = beforeQuery u := by
  induction u with
  | nil => simp [beforeQuery]
  | cons a t ih =>
    unfold beforeQuery at *
    by_cases ha : a = '?'
    · subst ha; simp [List.takeWhile_cons]
    · have ha2 : (a != '?') = true := by simpa using ha
      rw [List.cons_append, List.takeWhile_cons, ha2, List.takeWhile_cons, ha2]
      simp [ih]

theorem normalize_append_query (u q : Str) :
    normalize_url (u ++ '?' :: q) = normalize_url u := by
  unfold normalize_url
  rw [beforeQuery_append_query]

/-- C9: is_same_url is reflexive and symmetric, insensitive to a trailing
slash and to an appended query string, and in particular identifies
https://x.com/a?id=1 with https://x.com/a/. -/
theorem isSameUrl_spec (u v q : Str) :
    is_same_url u u = true
    ∧ is_same_url u v = is_same_url v u
    ∧ is_same_url (u ++ ['/']) u = true
    ∧ is_same_url (u ++ '?' :: q) u = true
    ∧ is_same_url "https://x.com/a?id=1".toList "https://x.com/a/".toList = true := by
  refine ⟨?_, ?_, ?_, ?_, by decide⟩
  · simp [is_same_url]
  · unfold is_same_url
    by_cases h : normalize_url u = normalize_url v
    · rw [h]
    · have h2 : ¬ (normalize_url v = normalize_url u) := fun hc => h hc.symm
      simp [h, h2]
  · unfold is_same_url
    rw [normalize_append_slash]
    simp
  · unfold is_same_url
    rw [normalize_append_query]
    simp

/-- C3 (amended): is_job_url returns false for every URL not starting with
http (hence also for the empty URL); for URLs starting with http it returns
true unconditionally when the netloc differs from the page domain, and for
same-domain URLs it returns true exactly when the lowercased URL contains one
of the job patterns. -/
theorem isJobUrl_amended (url pd : Str) (ps : List Str) :
    (pyStartsWith "http".toList url = false → is_job_url url pd ps = false)
    ∧ (pyStartsWith "http".toList url = true → netlocOf url ≠ pd →
        is_job_url url pd ps = true)
    ∧ (pyStartsWith "http".toList url = true → netlocOf url = pd →
        (is_job_url url pd ps = true ↔ ∃ p ∈ ps, p <:+: lowerStr url)) := by
  refine ⟨?_, ?_, ?_⟩
  · intro h
    simp only [is_job_url, h, Bool.not_false, Bool.or_true, if_true]
  · intro h hd
    have hemp : url.isEmpty = false := by
      have hp := of_decide_eq_true h
      cases url with
      | nil => simp at hp
      | cons a t => rfl
    have hne : (netlocOf url != pd) = true := by simpa using hd
    simp only [is_job_url, h, hemp, Bool.not_true, Bool.or_false, Bool.false_eq_true,
      if_false, hne, if_true]
  · intro h hd
    have hemp : url.isEmpty = false := by
      have hp := of_decide_eq_true h
      cases url with
      | nil => simp at hp
      | cons a t => rfl
    have heq : (netlocOf url != pd) = false := by simpa using hd
    simp only [is_job_url, h, hemp, Bool.not_true, Bool.or_false, Bool.false_eq_true,
      if_false, heq]
    simp [List.any_eq_true, pyIn]

/-- Witness for C3: a cross-domain https URL is accepted with no patterns. -/
theorem isJobUrl_amended_witness :
    is_job_url "https://boards.example.org/acme/jobs/1".toList "acme.com".toList [] = true :=
  (isJobUrl_amended "https://boards.example.org/acme/jobs/1".toList "acme.com".toList []).2.1
    (by decide) (by decide)

/-- Counterexample for C3 as stated: a cross-domain URL with scheme ftp is
rejected even though its domain differs from the page domain, because
is_job_url first requires the URL to start with http. -/
theorem isJobUrl_counterexample :
    is_job_url "ftp://other.com/a".toList "example.com".toList [] = false
    ∧ netlocOf "ftp://other.com/a".toList ≠ "example.com".toList := by
  constructor
  · decide
  · decide

/-- C2: match_keywords returns a sublist of the keyword list (hence a subset
keeping the original casing and input order, with each entry used at most
once); empty text or empty keyword list yields the empty list; the result
depends on the text only through its lowercasing, so matching is
case-insensitive; and the keyword go does not match inside golang but matches
the standalone token Go (and casing of the returned keyword follows the
keyword list, not the text). -/
theorem matchKeywords_spec (t t' : Str) (K : List Str)
    (hl : lowerStr t = lowerStr t') (he : t.isEmpty = t'.isEmpty) :
    (match_keywords t K).Sublist K
    ∧ match_keywords t [] = []
    ∧ match_keywords [] K = []
    ∧ match_keywords t K = match_keywords t' K
    ∧ match_keywords "I love golang".toList ["go".toList] = []
    ∧ match_keywords "I love Go".toList ["go".toList] = ["go".toList]
    ∧ match_keywords "go further".toList ["Go".toList] = ["Go".toList] := by
  refine ⟨?_, ?_, ?_, ?_, by decide, by decide, by decide⟩
  · unfold match_keywords
    by_cases h : (t.isEmpty || K.isEmpty) = true
    · rw [if_pos h]
      exact List.nil_sublist K
    · rw [if_neg (by simpa using h)]
      exact List.filter_sublist K
  · simp [match_keywords]
  · simp [match_keywords]
  · unfold match_keywords
    rw [hl, he]

/-- Witness for C2: the standalone token Go is matched case-insensitively. -/
theorem matchKeywords_spec_witness :
    match_keywords "I love Go".toList ["go".toList] = ["go".toList] :=
  (matchKeywords_spec "I love Go".toList "i LOVE gO".toList ["go".toList]
    (by decide) (by decide)).2.2.2.2.2.1

/-- C4 (amended): with no filters object or with both pattern lists empty no
job is filtered; otherwise a job is filtered out exactly when the include
list is non-empty and no include pattern matches, or when some exclude
pattern matches; and a pattern matches exactly when the text and the pattern
are both non-empty and the lowercased pattern is a substring of the
lowercased text (an empty pattern or empty text never matches, unlike plain
substring containment). -/
theorem shouldFilter_amended (text p : Str) (f : LocationFilters) :
    should_filter_by_location text none = false
    ∧ should_filter_by_location text (some ⟨[], []⟩) = false
    ∧ should_filter_by_location text (some f) =
        ((!f.includePats.isEmpty
            && !f.includePats.any (fun q => matches_location_pattern text q))
          || f.excludePats.any (fun q => matches_location_pattern text q))
    ∧ (matches_location_pattern text p = true ↔
        (text ≠ [] ∧ p ≠ [] ∧ lowerStr p <:+: lowerStr text)) := by
  refine ⟨rfl, rfl, ?_, ?_⟩
  · cases hinc : (!f.includePats.isEmpty
        && !f.includePats.any fun q => matches_location_pattern text q)
      <;> cases hexc : (f.excludePats.any fun q => matches_location_pattern text q)
      <;> simp [should_filter_by_location, hinc, hexc]
  · unfold matches_location_pattern
    by_cases h : (text.isEmpty || p.isEmpty) = true
    · rw [if_pos h]
      simp only [Bool.false_eq_true, false_iff]
      intro hc
      rcases hc with ⟨ht, hp, _⟩
      rcases Bool.or_eq_true_iff.mp h with h' | h'
      · exact ht (List.isEmpty_iff.mp h')
      · exact hp (List.isEmpty_iff.mp h')
    · rw [if_neg h]
      have h' := Bool.not_eq_true _ |>.mp h
      rcases Bool.or_eq_false_iff.mp h' with ⟨ht, hp⟩
      simp only [pyIn, decide_eq_true_eq]
      constructor
      · intro hin
        exact ⟨fun hc => by simp [hc] at ht, fun hc => by simp [hc] at hp, hin⟩
      · intro hc
        exact hc.2.2

/-- Counterexample for C4 as stated: with an include list holding the empty
pattern, the text x does contain that pattern as a substring, yet the job is
filtered out, because matches_location_pattern rejects empty patterns. -/
theorem shouldFilter_counterexample :
    should_filter_by_location "x".toList (some ⟨[[]], []⟩) = true
    ∧ ([] : Str) <:+: lowerStr "x".toList := by
  constructor
  · decide
  · decide

/-! ## Lemmas about the dict model used for URL deduplication -/

theorem upsert_keys (m : List (Str × RawJob)) (k : Str) (v : RawJob) :
    (upsert m k v).map Prod.fst =
      if k ∈ m.map Prod.fst then m.map Prod.fst else m.map Prod.fst ++ [k] := by
  induction m with
  | nil => simp [upsert]
  | cons a rest ih =>
    obtain ⟨ak, av⟩ := a
    by_cases h : ak = k
    · subst h
      simp [upsert]
    · simp only [upsert, if_neg h, List.map_cons]
      rw [ih]
      by_cases h2 : k ∈ rest.map Prod.fst
      · rw [if_pos h2, if_pos (by simp [h2])]
      · rw [if_neg h2, if_neg ?_]
        · simp
        · simp only [List.mem_cons]
          rintro (h3 | h3)
          · exact h h3.symm
          · exact h2 h3

theorem upsert_keys_nodup (m : List (Str × RawJob)) (k : Str) (v : RawJob)
    (h : (m.map Prod.fst).Nodup) : ((upsert m k v).map Prod.fst).Nodup := by
  rw [upsert_keys]
  by_cases h2 : k ∈ m.map Prod.fst
  · rw [if_pos h2]; exact h
  · rw [if_neg h2]
    exact List.nodup_append.mpr
      ⟨h, List.nodup_singleton k, fun x hx hk => h2 (List.mem_singleton.mp hk ▸ hx)⟩

theorem upsert_values_inv (m : List (Str × RawJob)) (j : RawJob) :
    (∀ p ∈ m, (p : Str × RawJob).2.url = p.1) →
      ∀ p ∈ upsert m j.url j, p.2.url = p.1 := by
  induction m with
  | nil =>
    intro _ p hp
    simp only [upsert, List.mem_singleton] at hp
    subst hp
    rfl
  | cons a rest ih =>
    intro h p hp
    obtain ⟨ak, av⟩ := a
    by_cases hk : ak = j.url
    · subst hk
      simp only [upsert, if_pos rfl] at hp
      rcases List.mem_cons.mp hp with h1 | h1
      · subst h1; rfl
      · exact h p (List.mem_cons_of_mem _ h1)
    · simp only [upsert, if_neg hk] at hp
      rcases List.mem_cons.mp hp with h1 | h1
      · subst h1; exact h (ak, av) (List.mem_cons_self _ _)
      · exact ih (fun q hq => h q (List.mem_cons_of_mem _ hq)) p h1

theorem assocFind_upsert (m : List (Str × RawJob)) (k k' : Str) (v : RawJob) :
    assocFind (upsert m k v) k' = if k' = k then some v else assocFind m k' := by
  induction m with
  | nil =>
    by_cases h : k' = k
    · subst h
      simp [upsert, assocFind, List.find?]
    · have hb : (k == k') = false := by
        simp only [beq_eq_false_iff_ne, ne_eq]
        exact fun hc => h hc.symm
      simp [upsert, assocFind, List.find?, hb, h]
  | cons a rest ih =>
    obtain ⟨ak, av⟩ := a
    by_cases hk : ak = k
    · subst hk
      by_cases h' : k' = ak
      · subst h'
        simp [upsert, assocFind, List.find?]
      · have hb : (ak == k') = false := by
          simp only [beq_eq_false_iff_ne, ne_eq]
          exact fun hc => h' hc.symm
        simp [upsert, assocFind, List.find?, hb, h']
    · by_cases h' : k' = ak
      · subst h'
        simp [upsert, assocFind, List.find?, hk]
      · have hb : (ak == k') = false := by
          simp only [beq_eq_false_iff_ne, ne_eq]
          exact fun hc => h' hc.symm
        simp only [upsert, if_neg hk]
        have step : assocFind ((ak, av) :: upsert rest k v) k' = assocFind (upsert rest k v) k' := by
          simp [assocFind, List.find?, hb]
        rw [step, ih]
        by_cases hkk : k' = k
        · rw [if_pos hkk, if_pos hkk]
        · rw [if_neg hkk, if_neg hkk]
          simp [assocFind, List.find?, hb]

theorem assocFind_foldl (l : List RawJob) :
    ∀ (m : List (Str × RawJob)) (k : Str),
      assocFind (l.foldl (fun m j => upsert m j.url j) m) k =
        (lastWithUrl l k).or (assocFind m k) := by
  induction l with
  | nil =>
    intro m k
    simp [lastWithUrl]
  | cons j rest ih =>
    intro m k
    simp only [List.foldl_cons]
    rw [ih, assocFind_upsert]
    have hl : lastWithUrl (j :: rest) k =
        (lastWithUrl rest k).or (if (j.url == k) = true then some j else none) := by
      unfold lastWithUrl
      rw [List.reverse_cons, List.find?_append]
      congr 1
      by_cases hc : (j.url == k) = true
      · simp [List.find?, hc]
      · simp only [Bool.not_eq_true] at hc
        simp [List.find?, hc]
    rw [hl, Option.or_assoc]
    congr 1
    by_cases hc : j.url = k
    · subst hc
      simp
    · have hb : (j.url == k) = false := by simpa using hc
      have hkk : ¬ (k = j.url) := fun h => hc h.symm
      simp [hb, hkk]

theorem assocFind_of_mem (m : List (Str × RawJob)) (hn : (m.map Prod.fst).Nodup) :
    ∀ p ∈ m, assocFind m p.1 = some p.2 := by
  induction m with
  | nil => intro p hp; simp at hp
  | cons a rest ih =>
    intro p hp
    obtain ⟨ak, av⟩ := a
    rcases List.mem_cons.mp hp with h1 | h1
    · subst h1
      simp [assocFind, List.find?]
    · have hne : (ak == p.1) = false := by
        simp only [List.map_cons, List.nodup_cons] at hn
        simp only [beq_eq_false_iff_ne, ne_eq]
        intro hc
        exact hn.1 (hc ▸ (List.mem_map_of_mem Prod.fst h1))
      have step : assocFind ((ak, av) :: rest) p.1 = assocFind rest p.1 := by
        simp [assocFind, List.find?, hne]
      rw [step]
      exact ih (by simp only [List.map_cons, List.nodup_cons] at hn; exact hn.2) p h1

theorem jobsDict_keys_mem (l : List RawJob) :
    ∀ (m : List (Str × RawJob)) (k : Str),
      (k ∈ (l.foldl (fun m j => upsert m j.url j) m).map Prod.fst) ↔
        (k ∈ m.map Prod.fst ∨ k ∈ l.map RawJob.url) := by
  induction l with
  | nil => intro m k; simp
  | cons j rest ih =>
    intro m k
    simp only [List.foldl_cons]
    rw [ih, upsert_keys]
    by_cases h : j.url ∈ m.map Prod.fst
    · rw [if_pos h]
      simp only [List.map_cons, List.mem_cons]
      constructor
      · rintro (h1 | h1)
        · exact Or.inl h1
        · exact Or.inr (Or.inr h1)
      · rintro (h1 | h1 | h1)
        · exact Or.inl h1
        · exact Or.inl (h1 ▸ h)
        · exact Or.inr h1
    · rw [if_neg h]
      simp only [List.mem_append, List.mem_singleton, List.map_cons, List.mem_cons]
      tauto

theorem jobsDict_keys_nodup (l : List RawJob) :
    ∀ m, (m.map Prod.fst).Nodup →
      ((l.foldl (fun m j => upsert m j.url j) m).map Prod.fst).Nodup := by
  induction l with
  | nil => intro m h; simpa using h
  | cons j rest ih =>
    intro m h
    simp only [List.foldl_cons]
    exact ih _ (upsert_keys_nodup m j.url j h)

theorem jobsDict_values_inv (l : List RawJob) :
    ∀ m, (∀ p ∈ m, (p : Str × RawJob).2.url = p.1) →
      ∀ p ∈ l.foldl (fun m j => upsert m j.url j) m, p.2.url = p.1 := by
  induction l with
  | nil => intro m h; simpa using h
  | cons j rest ih =>
    intro m h
    simp only [List.foldl_cons]
    exact ih _ (upsert_values_inv m j h)

/-- C5: deduplication keeps exactly one entry per distinct URL (the URLs of
the result are pairwise distinct and are exactly the URLs of the input), and
the surviving entry for each URL is the last occurrence of that URL in input
order (so its title and description are those of the last occurrence). -/
theorem dedupeJobs_spec (l : List RawJob) :
    ((dedupe_jobs l).map RawJob.url).Nodup
    ∧ (∀ u, u ∈ (dedupe_jobs l).map RawJob.url ↔ u ∈ l.map RawJob.url)
    ∧ (∀ j ∈ dedupe_jobs l, lastWithUrl l j.url = some j) := by
  have hinv : ∀ p ∈ jobsDict l, (p : Str × RawJob).2.url = p.1 :=
    jobsDict_values_inv l [] (by intro p hp; simp at hp)
  have hkeys : (dedupe_jobs l).map RawJob.url = (jobsDict l).map Prod.fst := by
    unfold dedupe_jobs
    rw [List.map_map]
    exact List.map_congr_left (fun p hp => hinv p hp)
  have hnod : ((jobsDict l).map Prod.fst).Nodup := jobsDict_keys_nodup l [] (by simp)
  refine ⟨?_, ?_, ?_⟩
  · rw [hkeys]; exact hnod
  · intro u
    rw [hkeys]
    have h := jobsDict_keys_mem l [] u
    simpa [jobsDict] using h
  · intro j hj
    unfold dedupe_jobs at hj
    obtain ⟨p, hp, hp2⟩ := List.mem_map.mp hj
    have h1 : assocFind (jobsDict l) p.1 = some p.2 := assocFind_of_mem _ hnod p hp
    have h2 : assocFind (jobsDict l) p.1 = (lastWithUrl l p.1).or (assocFind [] p.1) :=
      assocFind_foldl l [] p.1
    have h3 : (lastWithUrl l p.1).or none = some p.2 := by
      rw [h2] at h1
      simpa [assocFind] using h1
    have h4 : lastWithUrl l p.1 = some p.2 := by
      cases hcase : lastWithUrl l p.1 with
      | none => rw [hcase] at h3; simp at h3
      | some x => rw [hcase] at h3; simpa using h3
    have h5 : p.1 = j.url := by rw [← hinv p hp, hp2]
    rw [← h5, h4, hp2]

/-- Witness for C5: with two jobs sharing a URL, the survivor is the later
one. -/
theorem dedupeJobs_spec_witness :
    lastWithUrl
        [⟨"Old".toList, "http://e.com/1".toList, "d1".toList⟩,
         ⟨"New".toList, "http://e.com/1".toList, "d2".toList⟩]
        ("http://e.com/1".toList)
      = some ⟨"New".toList, "http://e.com/1".toList, "d2".toList⟩ :=
  (dedupeJobs_spec
      [⟨"Old".toList, "http://e.com/1".toList, "d1".toList⟩,
       ⟨"New".toList, "http://e.com/1".toList, "d2".toList⟩]).2.2
    ⟨"New".toList, "http://e.com/1".toList, "d2".toList⟩ (by decide)

/-- C6: check_for_next_page returns false immediately on an explicitly empty
custom selector list, even when a view would offer a visible Next control
(which the default selectors would click, as the last conjunct shows); with a
non-empty custom list or the default list it returns true exactly when some
selector locates a visible element whose non-empty text contains a
pagination keyword or a directional symbol. -/
theorem checkForNextPage_spec (view : Str → LocatorView) (sels : List Str) :
    check_for_next_page view (some []) = false
    ∧ check_for_next_page view none = DEFAULT_PAGINATION_SELECTORS.any (selectorQualifies view)
    ∧ check_for_next_page view (some sels) =
        (if sels.isEmpty then false else sels.any (selectorQualifies view))
    ∧ check_for_next_page (fun _ => LocatorView.vis (some "Next".toList)) (some []) = false
    ∧ check_for_next_page (fun _ => LocatorView.vis (some "Next".toList)) none = true := by
  refine ⟨rfl, rfl, ?_, rfl, by decide⟩
  cases sels with
  | nil => rfl
  | cons a rest => rfl

theorem mem_dedupeFirstAux (l : List RawJob) :
    ∀ seen j, j ∈ dedupeFirstAux l seen → j ∈ l := by
  induction l with
  | nil => intro seen j h; simp [dedupeFirstAux] at h
  | cons a rest ih =>
    intro seen j h
    unfold dedupeFirstAux at h
    by_cases hc : (seen.contains a.url) = true
    · rw [if_pos hc] at h
      exact List.mem_cons_of_mem _ (ih seen j h)
    · rw [if_neg (by simpa using hc)] at h
      rcases List.mem_cons.mp h with h1 | h1
      · exact h1 ▸ List.mem_cons_self _ _
      · exact List.mem_cons_of_mem _ (ih _ j h1)

/-- C7 (amended): a container whose derived title is shorter than 3
characters, or whose derived title contains an exclude_patterns.titles entry
as a verbatim substring of the lowercased title, produces no RawJob; and
every job produced by the custom extractor has a title of length at least 3
in which no exclude entry occurs as a verbatim substring of the lowercased
title.  The comparison lowercases only the title, not the pattern, so it is
case-insensitive on the title side only. -/
theorem customTitle_amended (resolve : Str → Str → Str) (pageUrl : Str)
    (exU exT : List Str) (c : CContainer) (cs : List CContainer) (j : RawJob) :
    ((extractTitleFromContainer c).length < 3
        ∨ (∃ k ∈ exT, k <:+: lowerStr (extractTitleFromContainer c)) →
      processContainer resolve pageUrl exU exT c = none)
    ∧ (j ∈ custom_extract resolve pageUrl exU exT cs →
        3 ≤ j.title.length ∧ ∀ k ∈ exT, ¬ (k <:+: lowerStr j.title)) := by
  constructor
  · intro h
    have hgate : (!(is_valid_title (extractTitleFromContainer c) 3)
        || should_exclude_by_title (extractTitleFromContainer c) exT) = true := by
      rcases h with h | h
      · have hlen : is_valid_title (extractTitleFromContainer c) 3 = false := by
          unfold is_valid_title
          have h3 : decide (3 ≤ (extractTitleFromContainer c).length) = false := by
            simp [Nat.not_le.mpr h]
          simp [h3]
        simp [hlen]
      · have hexc : should_exclude_by_title (extractTitleFromContainer c) exT = true := by
          unfold should_exclude_by_title
          rw [List.any_eq_true]
          obtain ⟨k, hk, hin⟩ := h
          exact ⟨k, hk, by simpa [pyIn] using hin⟩
        simp [hexc]
    simp only [processContainer]
    repeat' split
    all_goals try rfl
    rename_i hv he
    rw [Bool.or_eq_true] at hgate
    rcases hgate with hg | hg
    · exact absurd hg hv
    · exact absurd hg he
  · intro hj
    have hj2 := mem_dedupeFirstAux _ _ j hj
    obtain ⟨c', hc', hp⟩ := List.mem_filterMap.mp hj2
    simp only [processContainer] at hp
    repeat' split at hp
    all_goals try exact Option.noConfusion hp
    rename_i hv he
    have hXj := Option.some.inj hp
    have hj3 : j.title = extractTitleFromContainer c' := by
      rw [← hXj]
    constructor
    · rw [hj3]
      have hv2 : is_valid_title (extractTitleFromContainer c') 3 = true := by
        simpa using hv
      unfold is_valid_title at hv2
      rcases (Bool.and_eq_true _ _).mp hv2 with ⟨_, h2⟩
      simpa using h2
    · intro k hk hinfix
      apply he
      unfold should_exclude_by_title
      rw [List.any_eq_true]
      refine ⟨k, hk, ?_⟩
      rw [hj3] at hinfix
      simpa [pyIn] using hinfix

/-- Witness for C7: a container whose derived title ab is too short yields no
job. -/
theorem customTitle_amended_witness :
    processContainer (fun _ _ => "http://ex.com/j/2".toList) "http://ex.com/careers".toList
        [] [] ⟨false, some "/j/2".toList, "ab".toList, none, none, "d".toList, none⟩ = none :=
  (customTitle_amended (fun _ _ => "http://ex.com/j/2".toList) "http://ex.com/careers".toList
      [] [] ⟨false, some "/j/2".toList, "ab".toList, none, none, "d".toList, none⟩ [] default).1
    (Or.inl (by decide))

/-- Counterexample for C7 as stated: the exclude entry Apply occurs in the
derived title Apply now when both are compared lowercased, yet the container
still produces a RawJob, because the code lowercases only the title and the
capitalized pattern never matches. -/
theorem customTitle_counterexample :
    processContainer (fun _ _ => "http://ex.com/j/1".toList) "http://ex.com/careers".toList
        [] ["Apply".toList]
        ⟨false, some "/j/1".toList, "Apply now".toList, none, none, "d".toList, none⟩
      = some ⟨"Apply now".toList, "http://ex.com/j/1".toList, "d".toList⟩
    ∧ lowerStr "Apply".toList <:+: lowerStr "Apply now".toList := by
  constructor
  · decide
  · decide

theorem match_keywords_sublist (t : Str) (K : List Str) :
    (match_keywords t K).Sublist K := by
  unfold match_keywords
  by_cases h : (t.isEmpty || K.isEmpty) = true
  · rw [if_pos h]
    exact List.nil_sublist K
  · rw [if_neg (by simpa using h)]
    exact List.filter_sublist K

/-- C10: with use_iframe enabled and no custom scraping config,
extract_jobs_from_page returns the iframe result when it is non-empty, and
falls back to the default extractor result when the iframe extractor returns
zero jobs. -/
theorem extractDispatch_spec (clicking custom' iframeJobs defaultJobs : List RawJob) :
    (iframeJobs ≠ [] →
      extract_jobs_from_page none true clicking custom' iframeJobs defaultJobs = iframeJobs)
    ∧ extract_jobs_from_page none true clicking custom' [] defaultJobs = defaultJobs
    ∧ extract_jobs_from_page none true clicking custom' iframeJobs defaultJobs =
        (if iframeJobs.isEmpty then defaultJobs else iframeJobs) := by
  refine ⟨?_, rfl, rfl⟩
  intro h
  have hne : iframeJobs.isEmpty = false := by simpa [List.isEmpty_iff] using h
  simp [extract_jobs_from_page, hne]

/-- Witness for C10: a singleton iframe result is returned as is. -/
theorem extractDispatch_spec_witness :
    extract_jobs_from_page none true [] [] [⟨"t".toList, "u".toList, []⟩] [] =
      [⟨"t".toList, "u".toList, []⟩] :=
  (extractDispatch_spec [] [] [⟨"t".toList, "u".toList, []⟩] []).1 (by decide)

/-- C1 (amended): every keyword recorded in a JobMatch produced by
scrape_company is the lowercased form of a caller-supplied keyword
(universal or company-specific); the original casing is not preserved,
because the orchestrator lowercases all keywords before matching, even
though match_keywords itself returns its input entries unchanged. -/
theorem matchedKeywords_amended (env : ScrapeEnv) (univ : List Str) (c : Company)
    (m : JobMatch) (kw : Str) (hm : m ∈ scrape_company env univ c)
    (hk : kw ∈ m.matched_keywords) :
    kw ∈ (univ ++ c.keywords).map lowerStr := by
  unfold scrape_company at hm
  repeat' split at hm
  all_goals try exact absurd hm (List.not_mem_nil m)
  unfold buildMatches at hm
  obtain ⟨j, hj, hsome⟩ := List.mem_filterMap.mp hm
  repeat' split at hsome
  all_goals try exact Option.noConfusion hsome
  have hmk : m.matched_keywords =
      match_keywords (j.title ++ ' ' :: j.description)
        ((univ.map lowerStr ++ c.keywords.map lowerStr).dedup) := by
    rw [← Option.some.inj hsome]
  rw [hmk] at hk
  have hsub := match_keywords_sublist (j.title ++ ' ' :: j.description)
    ((univ.map lowerStr ++ c.keywords.map lowerStr).dedup)
  have hkd : kw ∈ (univ.map lowerStr ++ c.keywords.map lowerStr).dedup := hsub.mem hk
  rw [List.mem_dedup] at hkd
  rw [List.map_append]
  exact hkd

/-- Witness for C1: with company keyword Python, the produced match records
the lowercased keyword python, which is the lowercasing of a supplied
keyword. -/
theorem matchedKeywords_amended_witness :
    "python".toList ∈ (([] : List Str) ++ ["Python".toList]).map lowerStr :=
  matchedKeywords_amended
    ⟨fun _ => [⟨"Python Dev".toList, "http://e.com/j/1".toList, []⟩],
      fun _ => false, FailPoint.ok⟩
    [] ⟨"Acme".toList, "http://e.com/c".toList, ["Python".toList], none, 1⟩
    ⟨"Python Dev".toList, "http://e.com/j/1".toList, "Acme".toList, ["python".toList]⟩
    "python".toList (by decide) (by decide)

/-- Counterexample for C1 as stated: the caller supplies the keyword Python,
and the resulting JobMatch records python, the lowercased form, not the
caller-supplied surface form. -/
theorem matchedKeywords_counterexample :
    (scrape_company
        ⟨fun _ => [⟨"Python Dev".toList, "http://e.com/j/1".toList, []⟩],
          fun _ => false, FailPoint.ok⟩
        [] ⟨"Acme".toList, "http://e.com/c".toList, ["Python".toList], none, 1⟩).map
      JobMatch.matched_keywords = [["python".toList]]
    ∧ "python".toList ≠ "Python".toList := by
  constructor
  · decide
  · decide

/-- C8 (amended): a failure at navigation, during the pre-scrape actions or
inside the extraction/pagination loop is caught at the company boundary and
the company contributes zero matches; an exception in the final page close is
also caught but returns the already-built matches; in every case the session
result is the concatenation of the per-company results, so one company never
aborts the others. -/
theorem scrapeFailure_amended (env : ScrapeEnv) (univ : List Str) (c : Company)
    (pre post : List (Company × ScrapeEnv)) :
    (env.fail = FailPoint.nav → scrape_company env univ c = [])
    ∧ (env.fail = FailPoint.actions → scrape_company env univ c = [])
    ∧ (loopPages env 1 c.max_pages = Except.error () → scrape_company env univ c = [])
    ∧ scrape_all univ (pre ++ (c, env) :: post) =
        (pre.map (fun p => scrape_company p.2 univ p.1)).flatten
          ++ scrape_company env univ c
          ++ (post.map (fun p => scrape_company p.2 univ p.1)).flatten := by
  refine ⟨?_, ?_, ?_, ?_⟩
  · intro h
    simp [scrape_company, h]
  · intro h
    simp [scrape_company, h]
  · intro h
    simp [scrape_company, h]
  · unfold scrape_all
    have hne : ((pre ++ (c, env) :: post).isEmpty) = false := by
      cases pre <;> rfl
    rw [if_neg (by simp [hne])]
    simp [List.map_append, List.flatten_append, List.append_assoc]

/-- Witness for C8: an exception while extracting page 1 yields zero matches
for the company. -/
theorem scrapeFailure_amended_witness :
    scrape_company ⟨fun _ => [], fun _ => false, FailPoint.extractPage 1⟩ []
      ⟨"A".toList, "http://e.com".toList, [], none, 5⟩ = [] :=
  (scrapeFailure_amended ⟨fun _ => [], fun _ => false, FailPoint.extractPage 1⟩ []
      ⟨"A".toList, "http://e.com".toList, [], none, 5⟩ [] []).2.2.1 rfl

/-- Counterexample for C8 as stated: when the exception occurs at the final
page close, after the matches are built, the caught exception still leaves
the company with its non-empty match list, not zero matches. -/
theorem scrapeFailure_counterexample :
    (⟨fun _ => [⟨"Python Dev".toList, "http://e.com/j/1".toList, []⟩],
        fun _ => false, FailPoint.close⟩ : ScrapeEnv).fail = FailPoint.close
    ∧ scrape_company
        ⟨fun _ => [⟨"Python Dev".toList, "http://e.com/j/1".toList, []⟩],
          fun _ => false, FailPoint.close⟩
        [] ⟨"Acme".toList, "http://e.com/c".toList, ["python".toList], none, 10⟩
      = [⟨"Python Dev".toList, "http://e.com/j/1".toList, "Acme".toList, ["python".toList]⟩]
    ∧ scrape_company
        ⟨fun _ => [⟨"Python Dev".toList, "http://e.com/j/1".toList, []⟩],
          fun _ => false, FailPoint.close⟩
        [] ⟨"Acme".toList, "http://e.com/c".toList, ["python".toList], none, 10⟩ ≠ [] := by
  refine ⟨rfl, by decide, by decide⟩
